import Mathlib

/-!
Verification of the data-cleaning pipeline described by the repository's
specification against the notebook `Data Cleaning/Data Cleaning.ipynb`.

The notebook applies a fixed sequence of pandas transformations to a small
in-memory table (`messy_df`): numeric coercion of `age`, median imputation,
categorical fills for `country`/`gender`, regex-based normalization of
`annual_income` (strip every character other than digits and decimal points,
parse, multiply by 1000), dropping `monthly_salary`, and relabelling
`Other` to `Non-binary` in `gender`.

The specification additionally describes, at design level, a reusable
Pipeline with steps `coerce_numeric`, `impute_missing`, `fill_categorical`,
`normalize_numeric_text`, `relabel_category`, `drop_column` and a `run`
function; that component is not implemented in the repository, so those
definitions are modelled from the spec (marked as such) while the notebook's
concrete cell transformations are embedded directly from the source.
-/

set_option autoImplicit false

namespace DataCleaning

/-- An exact rational number, kept as an unreduced fraction
`num / den` (every fraction built by the pipeline has a positive
denominator). Python's float arithmetic on the small decimal values of the
notebook is exact, so fractions model it faithfully; `Frac.toRat` gives
the value in `ℚ`. -/
structure Frac where
  num : ℤ
  den : ℕ
deriving DecidableEq, Repr

/-- The rational value of a fraction. -/
def Frac.toRat (q : Frac) : ℚ :=
  (q.num : ℚ) / (q.den : ℚ)

instance (n : ℕ) : OfNat Frac n :=
  ⟨⟨n, 1⟩⟩

instance : Add Frac :=
  ⟨fun a b => ⟨a.num * b.den + b.num * a.den, a.den * b.den⟩⟩

instance : Mul Frac :=
  ⟨fun a b => ⟨a.num * b.num, a.den * b.den⟩⟩

/-- Division by a natural number (the only division the pipeline needs:
median of an even count and the arithmetic mean). -/
def Frac.divNat (a : Frac) (n : ℕ) : Frac :=
  ⟨a.num, a.den * n⟩

instance : LE Frac :=
  ⟨fun a b => a.num * (b.den : ℤ) ≤ b.num * (a.den : ℤ)⟩

instance (a b : Frac) : Decidable (a ≤ b) :=
  inferInstanceAs (Decidable (a.num * (b.den : ℤ) ≤ b.num * (a.den : ℤ)))

/-- Two fractions denote the same rational (cross multiplication; the
equality `pandas` uses when comparing numeric values). -/
def Frac.equiv (a b : Frac) : Bool :=
  a.num * (b.den : ℤ) == b.num * (a.den : ℤ)

/-- A cell value: missing (`NaN`), a numeric value (an exact rational), or
text. This matches the spec's data model and the mixed-type object columns
of the notebook's DataFrame. -/
inductive Value where
  | missing : Value
  | num : Frac → Value
  | text : String → Value
deriving DecidableEq, Repr

/-- A named column: a name and an ordered list of cell values. -/
structure Column where
  name : String
  cells : List Value
deriving DecidableEq, Repr

/-- A table is an ordered sequence of named columns. -/
abbrev Table := List Column

/-- `true` iff the cell is missing. -/
def isMissing (v : Value) : Bool :=
  match v with
  | .missing => true
  | _ => false

/-- Number of missing cells in a column's cell list. -/
def countMissing (cells : List Value) : ℕ :=
  (cells.filter isMissing).length

/-! ## Numeric parsing

`pd.to_numeric(·, errors='coerce')` applied to the strings that arise in the
notebook (strings of digits and at most one decimal point, after separators
are stripped) parses them as decimal numbers and maps everything else to
`NaN`. We embed that as `parseDecimal`. -/

/-- Numeric value of a list of decimal digit characters, most significant
first (`foldl` with base 10, as positional systems read). -/
def natOfDigits (l : List Char) : ℕ :=
  l.foldl (fun a c => 10 * a + (c.toNat - 48)) 0

/-- Number of decimal points in a character list. -/
def countDots (l : List Char) : ℕ :=
  (l.filter (fun c => c = '.')).length

/-- A character list is a valid decimal literal iff every character is a
digit or a decimal point, at least one digit occurs, and at most one
decimal point occurs (`float`/`to_numeric` acceptance on digit-and-dot
strings: `"60000"`, `"27.5"`, `"5."`, `".5"` parse; `""`, `"."`, `"1.2.3"`
do not). -/
def isDecimalLiteral (l : List Char) : Bool :=
  l.all (fun c => c.isDigit || c = '.') && l.any Char.isDigit
    && decide (countDots l ≤ 1)

/-- Parse a string as a decimal number the way `pd.to_numeric` does on
digit-and-dot strings: integer part plus fractional part over the matching
power of ten; `none` models coercion to `NaN`. -/
def parseDecimal (s : String) : Option Frac :=
  let l := s.toList
  if isDecimalLiteral l then
    let ip := l.takeWhile (fun c => c ≠ '.')
    let fp := (l.dropWhile (fun c => c ≠ '.')).drop 1
    if fp.isEmpty then some ⟨natOfDigits ip, 1⟩
    else some ⟨(natOfDigits ip : ℤ) * ((10 : ℕ) ^ fp.length : ℕ)
        + (natOfDigits fp : ℤ), (10 : ℕ) ^ fp.length⟩
  else
    none

/-- `messy_df['annual_income'].str.replace('[^\d.]', '', regex=True)`:
delete every character that is neither a digit nor a decimal point. -/
def stripToDigitsDot (s : String) : String :=
  String.mk (s.toList.filter (fun c => c.isDigit || c = '.'))

/-- `true` iff the string contains at least one decimal digit. -/
def containsDigit (s : String) : Bool :=
  s.toList.any Char.isDigit

/-! ## Statistics -/

/-- The numeric values of a column's non-missing cells (text cells carry no
numeric value and contribute nothing, exactly as `median`/`mean` skip
`NaN`). -/
def nonMissingNums (cells : List Value) : List Frac :=
  cells.filterMap (fun v =>
    match v with
    | .num q => some q
    | _ => none)

/-- Insert a value into an ascending-sorted list, keeping it sorted. -/
def insertSorted (q : Frac) : List Frac → List Frac
  | [] => [q]
  | x :: xs => if q ≤ x then q :: x :: xs else x :: insertSorted q xs

/-- Insertion sort into ascending order. -/
def sortAsc (l : List Frac) : List Frac :=
  l.foldr insertSorted []

/-- The median of a list of rationals: middle element of the sorted list for
odd length, mean of the two middle elements for even length, `none` for the
empty list (as `pandas` `Series.median()` of an all-`NaN` column is `NaN`). -/
def medianOf (l : List Frac) : Option Frac :=
  let s := sortAsc l
  let n := s.length
  if n = 0 then none
  else if n % 2 = 1 then some (s.getD (n / 2) 0)
  else some ((s.getD (n / 2 - 1) 0 + s.getD (n / 2) 0).divNat 2)

/-- The arithmetic mean, `none` on the empty list. -/
def meanOf (l : List Frac) : Option Frac :=
  if l.length = 0 then none
  else some ((l.foldr (· + ·) 0).divNat l.length)

/-- Multiplicity of the rational `q` among `l` (by value, as `pandas`
compares numbers, not by representation). -/
def countIn (l : List Frac) (q : Frac) : ℕ :=
  (l.filter (fun x => Frac.equiv x q)).length

/-- A mode of the list: a value of maximal multiplicity, `none` on the empty
list. -/
def modeOf (l : List Frac) : Option Frac :=
  l.foldl
    (fun best q =>
      match best with
      | none => some q
      | some b => if countIn l b < countIn l q then some q else some b)
    none

/-! ## Table access and per-column transformation -/

/-- `true` iff the table has a column of the given name. -/
def hasColumn : Table → String → Bool
  | [], _ => false
  | c :: cs, name => if c.name = name then true else hasColumn cs name

/-- The cells of the (first) column of the given name, `[]` if absent
(`df[name]`). -/
def getCells : Table → String → List Value
  | [], _ => []
  | c :: cs, name => if c.name = name then c.cells else getCells cs name

/-- Replace the cells of every column of the given name by their image under
`f`, leaving all other columns untouched (column assignment
`df[name] = f(df[name])`). -/
def mapColumnCells : Table → String → (Value → Value) → Table
  | [], _, _ => []
  | c :: cs, name, f =>
    (if c.name = name then ⟨c.name, c.cells.map f⟩ else c)
      :: mapColumnCells cs name f

/-- Remove every column of the given name (`df.drop(name, axis=1)`), keeping
all other columns in order. -/
def dropColumnList : Table → String → Table
  | [], _ => []
  | c :: cs, name =>
    if c.name = name then dropColumnList cs name
    else c :: dropColumnList cs name

/-! ## The notebook's concrete cell transformations -/

/-- The `age` coercion cell:
`pd.to_numeric(messy_df['age'].replace('thirty-five', 35), errors='coerce')`.
The literal `'thirty-five'` is first replaced by `35`; numbers pass through;
any other text is parsed if possible and coerced to `NaN` otherwise. -/
def ageCoerceCell (v : Value) : Value :=
  match v with
  | .text s =>
    if s = "thirty-five" then .num 35
    else
      match parseDecimal s with
      | some q => .num q
      | none => .missing
  | .num q => .num q
  | .missing => .missing

/-- `fillna(q)` on a numeric column: replace missing cells by `q`. -/
def fillMissingCell (q : Frac) (v : Value) : Value :=
  match v with
  | .missing => .num q
  | _ => v

/-- `fillna(d)` on a categorical column: replace missing cells by the text
default `d`. -/
def fillCatCell (d : String) (v : Value) : Value :=
  match v with
  | .missing => .text d
  | _ => v

/-- The `annual_income` normalization cell:
`pd.to_numeric(col.str.replace('[^\d.]', '', regex=True), errors='coerce')`
followed by `*= 1000`. A text value is stripped to its digit-and-dot
residue, parsed (`NaN` on failure), and the parsed value is multiplied by
1000 unconditionally. A missing cell stays `NaN` through `.str`,
`to_numeric` and the multiplication; a non-string cell becomes `NaN` under
the `.str` accessor. -/
def incomeNormalizeCell (v : Value) : Value :=
  match v with
  | .text s =>
    match parseDecimal (stripToDigitsDot s) with
    | some q => .num (q * 1000)
    | none => .missing
  | _ => .missing

/-- `Series.replace(old, new)` on a text column: exact matches of `old`
become `new`, everything else passes through. -/
def replaceCell (old new : String) (v : Value) : Value :=
  match v with
  | .text s => if s = old then .text new else .text s
  | _ => v

/-- The two notebook operations that touch `gender`, in source order: first
`fillna({'gender': 'Other'})`, then `replace('Other', 'Non-binary')`. -/
def genderClean (v : Value) : Value :=
  replaceCell "Other" "Non-binary" (fillCatCell "Other" v)

/-- The notebook's `messy_df` as built from `messy_data`. -/
def messyTable : Table :=
  [ ⟨"name", [.text "Alice", .text "Bob", .text "Charlie", .text "David",
      .text "Emily", .text "Frank", .text "Grace"]⟩,
    ⟨"age", [.num 25, .num 30, .missing, .text "thirty-five", .num 22,
      .num 45, .text "unknown"]⟩,
    ⟨"gender", [.text "Female", .text "Male", .text "Male", .text "Male",
      .text "Female", .text "Other", .text "Male"]⟩,
    ⟨"country", [.text "USA", .text "Canada", .text "Mexico", .text "USA",
      .text "Australia", .text "Unknown", .text "UK"]⟩,
    ⟨"monthly_salary", [.num 50000, .num 75000, .text "60k", .missing,
      .num 40000, .text "unknown", .num 80000]⟩,
    ⟨"annual_income", [.text "60,000", .text "90,000", .missing,
      .text "100,000", .text "40k", .text "75k", .text "unknown"]⟩ ]

/-- The whole notebook pipeline, cells 22-24 in source order: age coercion,
age median imputation (`fillna` is a no-op when the median of an all-missing
column is itself `NaN`), categorical fills, `annual_income` normalization,
dropping `monthly_salary`, relabelling `gender`. -/
def notebookClean (t : Table) : Table :=
  let t1 := mapColumnCells t "age" ageCoerceCell
  let t2 :=
    match medianOf (nonMissingNums (getCells t1 "age")) with
    | some m => mapColumnCells t1 "age" (fillMissingCell m)
    | none => t1
  let t3 := mapColumnCells t2 "country" (fillCatCell "Unknown")
  let t4 := mapColumnCells t3 "gender" (fillCatCell "Other")
  let t5 := mapColumnCells t4 "annual_income" incomeNormalizeCell
  let t6 := dropColumnList t5 "monthly_salary"
  mapColumnCells t6 "gender" (replaceCell "Other" "Non-binary")

/-! ## The spec's Pipeline component

The specification describes a reusable Pipeline (§2-§4) that the repository
does not implement; only the notebook cells that it generalizes are under
source control. The definitions below are therefore modelled from the
spec's words, and the notebook embedding above fixes the concrete
semantics that they generalize. -/

/-- Modelled from the spec: imputation strategies
`strategy ∈ {mean, median, mode, constant}` (§4.1, §6). -/
inductive Strategy where
  | mean : Strategy
  | median : Strategy
  | mode : Strategy
  | const : Frac → Strategy
deriving DecidableEq, Repr

/-- Modelled from the spec: the fatal error taxonomy (§7).
`columnNotFound` carries the offending step and column ("a typed error
identifying the offending step and column"); `imputationError` is
"surfaced to caller with column name". -/
inductive PipelineError where
  | columnNotFound : String → String → PipelineError
  | imputationError : String → PipelineError
deriving DecidableEq, Repr

/-- Modelled from the spec: the six cleaning steps of §4.1, with their
configuration supplied as plain data (§6). Maps are association lists. -/
inductive Step where
  | coerce_numeric : String → List (String × Frac) → Step
  | impute_missing : String → Strategy → Step
  | fill_categorical : String → String → Step
  | normalize_numeric_text : String → List (String × Frac) → Step
  | relabel_category : String → List (String × String) → Step
  | drop_column : String → Step
deriving DecidableEq, Repr

/-- Modelled from the spec: per-step `CleaningReport` — rows affected,
missing-value counts before/after, and the values that failed coercion
(§3). -/
structure CleaningReport where
  stepName : String
  column : String
  rowsAffected : ℕ
  missingBefore : ℕ
  missingAfter : ℕ
  failedValues : List Value
deriving DecidableEq, Repr

/-- Modelled from the spec: `coerce_numeric` cell semantics — "apply
overrides, then parse remaining values as numbers; values that still fail
to parse become missing" (§4.1). The override map takes precedence over
parsing; numbers pass through; missing stays missing. -/
def coerceCell (overrides : List (String × Frac)) (v : Value) : Value :=
  match v with
  | .text s =>
    match overrides.find? (fun p => p.1 == s) with
    | some p => .num p.2
    | none =>
      match parseDecimal s with
      | some q => .num q
      | none => .missing
  | .num q => .num q
  | .missing => .missing

/-- The cell values of a column that `coerce_numeric` records as coercion
failures: text values covered by no override and unparseable as numbers
("failures always recorded, never guessed"). -/
def coerceFailures (overrides : List (String × Frac)) (cells : List Value) :
    List Value :=
  cells.filter (fun v =>
    match v with
    | .text s =>
      (overrides.find? (fun p => p.1 == s)).isNone && (parseDecimal s).isNone
    | _ => false)

/-- `true` iff `suf` is a suffix of `l`. -/
def isSuffixL (suf l : List Char) : Bool :=
  suf.reverse.isPrefixOf l.reverse

/-- The first entry of the suffix map whose (non-empty) suffix ends the
string, if any. -/
def suffixLookup (suffixes : List (String × Frac)) (s : String) :
    Option (String × Frac) :=
  suffixes.find? (fun p => !(p.1 == "") && isSuffixL p.1.toList s.toList)

/-- Modelled from the spec: `normalize_numeric_text` cell semantics —
"strip non-digit separators, expand recognized suffix multipliers (e.g.,
k → ×1000), parse to numeric; unrecognized text → missing" (§4.1), where
the multiplier is applied "only to values bearing a recognized suffix"
(§9). A recognized suffix is removed and its multiplier applied to the
parsed remainder; otherwise the separators are stripped and the value
parsed as-is; parse failure gives missing. -/
def normalizeTextCell (suffixes : List (String × Frac)) (v : Value) : Value :=
  match v with
  | .text s =>
    match suffixLookup suffixes s with
    | some p =>
      let base := String.mk (s.toList.take (s.toList.length - p.1.toList.length))
      match parseDecimal (stripToDigitsDot base) with
      | some q => .num (q * p.2)
      | none => .missing
    | none =>
      match parseDecimal (stripToDigitsDot s) with
      | some q => .num q
      | none => .missing
  | .num q => .num q
  | .missing => .missing

/-- The cell values of a column that `normalize_numeric_text` records as
unrecognized: text values that normalize to missing. -/
def normalizeFailures (suffixes : List (String × Frac)) (cells : List Value) :
    List Value :=
  cells.filter (fun v =>
    match v with
    | .text _ => isMissing (normalizeTextCell suffixes v)
    | _ => false)

/-- Modelled from the spec: `relabel_category` cell semantics — "replace
exact-match labels only; labels absent from the mapping pass through
unchanged" (§4.1). -/
def relabelCell (mapping : List (String × String)) (v : Value) : Value :=
  match v with
  | .text s =>
    match mapping.find? (fun p => p.1 == s) with
    | some p => .text p.2
    | none => .text s
  | _ => v

/-- Modelled from the spec: the statistic a strategy computes over the
non-missing values (`vals` is non-empty whenever this is reached). -/
def statOf (strategy : Strategy) (vals : List Frac) : Frac :=
  match strategy with
  | .mean => (meanOf vals).getD 0
  | .median => (medianOf vals).getD 0
  | .mode => (modeOf vals).getD 0
  | .const q => q

/-- Number of cells at which two equally long cell lists differ (the
"rows affected" entry of a report). -/
def cellsChanged (before after : List Value) : ℕ :=
  (List.zip before after).countP (fun p => !(p.1 == p.2))

/-- Modelled from the spec: apply one `CleaningStep` to a table, producing
the new table and its `CleaningReport`, or a fatal `PipelineError` —
`ColumnNotFoundError` when the step references an absent column (§7), and
`ImputationError` when `impute_missing` finds no non-missing value to
compute a statistic from (§4.1, §7). Steps are pure: the input table is
never mutated. -/
def applyStep (s : Step) (t : Table) :
    Except PipelineError (Table × CleaningReport) :=
  match s with
  | .coerce_numeric col overrides =>
    if hasColumn t col then
      let before := getCells t col
      let t2 := mapColumnCells t col (coerceCell overrides)
      let after := getCells t2 col
      .ok (t2, ⟨"coerce_numeric", col, cellsChanged before after,
        countMissing before, countMissing after,
        coerceFailures overrides before⟩)
    else .error (.columnNotFound "coerce_numeric" col)
  | .impute_missing col strategy =>
    if hasColumn t col then
      let before := getCells t col
      let vals := nonMissingNums before
      if vals.isEmpty then .error (.imputationError col)
      else
        let t2 := mapColumnCells t col (fillMissingCell (statOf strategy vals))
        let after := getCells t2 col
        .ok (t2, ⟨"impute_missing", col, cellsChanged before after,
          countMissing before, countMissing after, []⟩)
    else .error (.columnNotFound "impute_missing" col)
  | .fill_categorical col d =>
    if hasColumn t col then
      let before := getCells t col
      let t2 := mapColumnCells t col (fillCatCell d)
      let after := getCells t2 col
      .ok (t2, ⟨"fill_categorical", col, cellsChanged before after,
        countMissing before, countMissing after, []⟩)
    else .error (.columnNotFound "fill_categorical" col)
  | .normalize_numeric_text col suffixes =>
    if hasColumn t col then
      let before := getCells t col
      let t2 := mapColumnCells t col (normalizeTextCell suffixes)
      let after := getCells t2 col
      .ok (t2, ⟨"normalize_numeric_text", col, cellsChanged before after,
        countMissing before, countMissing after,
        normalizeFailures suffixes before⟩)
    else .error (.columnNotFound "normalize_numeric_text" col)
  | .relabel_category col mapping =>
    if hasColumn t col then
      let before := getCells t col
      let t2 := mapColumnCells t col (relabelCell mapping)
      let after := getCells t2 col
      .ok (t2, ⟨"relabel_category", col, cellsChanged before after,
        countMissing before, countMissing after, []⟩)
    else .error (.columnNotFound "relabel_category" col)
  | .drop_column name =>
    if hasColumn t name then
      .ok (dropColumnList t name, ⟨"drop_column", name, 0, 0, 0, []⟩)
    else .error (.columnNotFound "drop_column" name)

/-- The outcome of a pipeline run: the (possibly partial) table, the
reports of the steps that completed, and the fatal error if one occurred. -/
structure RunResult where
  table : Table
  reports : List CleaningReport
  err : Option PipelineError
deriving DecidableEq, Repr

/-- Modelled from the spec: `run(table, steps) -> (table, reports)` — steps
execute strictly in list order, each report is collected, and a fatal error
stops the pipeline at the failing step, returning the partial results of
prior steps plus the error (§4.1, §7). -/
def run (t : Table) (steps : List Step) : RunResult :=
  match steps with
  | [] => ⟨t, [], none⟩
  | s :: rest =>
    match applyStep s t with
    | .error e => ⟨t, [], some e⟩
    | .ok (t2, r) =>
      let res := run t2 rest
      ⟨res.table, r :: res.reports, res.err⟩

/-! ## Invariants and helper lemmas -/

/-- `true` iff every column of the table has exactly `n` cells — the spec's
core invariant "row count is uniform across columns at all times". -/
def uniformRows (t : Table) (n : ℕ) : Bool :=
  t.all (fun c => c.cells.length == n)

/-- `true` iff applying the step to the table either fails (fatally) or
produces a table all of whose columns still have `n` cells. -/
def stepRowsOk (s : Step) (t : Table) (n : ℕ) : Bool :=
  match applyStep s t with
  | .ok p => uniformRows p.1 n
  | .error _ => true

theorem uniformRows_mapColumnCells {t : Table} {n : ℕ} (col : String)
    (f : Value → Value) (h : uniformRows t n = true) :
    uniformRows (mapColumnCells t col f) n = true := by
  induction t with
  | nil => rfl
  | cons c cs ih =>
    simp only [uniformRows, mapColumnCells, List.all_cons, Bool.and_eq_true] at h ⊢
    refine ⟨?_, ih h.2⟩
    by_cases hname : c.name = col
    · simpa [hname] using h.1
    · simpa [hname] using h.1

theorem uniformRows_dropColumnList {t : Table} {n : ℕ} (name : String)
    (h : uniformRows t n = true) :
    uniformRows (dropColumnList t name) n = true := by
  induction t with
  | nil => rfl
  | cons c cs ih =>
    simp only [uniformRows, List.all_cons, Bool.and_eq_true] at h
    simp only [dropColumnList]
    by_cases hname : c.name = name
    · rw [if_pos hname]
      exact ih h.2
    · rw [if_neg hname]
      simp only [uniformRows, List.all_cons, Bool.and_eq_true]
      exact ⟨h.1, ih h.2⟩

theorem hasColumn_mapColumnCells (t : Table) (col name : String)
    (f : Value → Value) :
    hasColumn (mapColumnCells t col f) name = hasColumn t name := by
  induction t with
  | nil => rfl
  | cons c cs ih =>
    simp only [mapColumnCells, hasColumn]
    by_cases hcol : c.name = col
    · simp [hcol, ih]
    · simp [hcol, ih]

theorem getCells_mapColumnCells_self (t : Table) (col : String)
    (f : Value → Value) :
    getCells (mapColumnCells t col f) col = (getCells t col).map f := by
  induction t with
  | nil => rfl
  | cons c cs ih =>
    simp only [mapColumnCells, getCells]
    by_cases hname : c.name = col
    · simp [hname]
    · simp [hname, ih]

theorem getCells_mapColumnCells_ne (t : Table) (col other : String)
    (h : col ≠ other) (f : Value → Value) :
    getCells (mapColumnCells t other f) col = getCells t col := by
  induction t with
  | nil => rfl
  | cons c cs ih =>
    have hoc : other ≠ col := fun hh => h hh.symm
    simp only [mapColumnCells, getCells]
    by_cases hother : c.name = other
    · have hcol : ¬ c.name = col := by
        rw [hother]; exact hoc
      simp [hother, hcol, hoc, ih]
    · by_cases hcol : c.name = col
      · simp [hother, hcol, h, hoc]
      · simp [hother, hcol, ih]

theorem getCells_dropColumnList_ne (t : Table) (col other : String)
    (h : col ≠ other) :
    getCells (dropColumnList t other) col = getCells t col := by
  induction t with
  | nil => rfl
  | cons c cs ih =>
    have hoc : other ≠ col := fun hh => h hh.symm
    simp only [dropColumnList, getCells]
    by_cases hother : c.name = other
    · have hcol : ¬ c.name = col := by
        rw [hother]; exact hoc
      simp [hother, hcol, hoc, ih]
    · by_cases hcol : c.name = col
      · simp [hother, hcol, h, hoc, getCells]
      · simp [hother, hcol, getCells, ih]

theorem hasColumn_dropColumnList_self (t : Table) (name : String) :
    hasColumn (dropColumnList t name) name = false := by
  induction t with
  | nil => rfl
  | cons c cs ih =>
    simp only [dropColumnList]
    by_cases hname : c.name = name
    · simpa [hname] using ih
    · simpa [hasColumn, hname] using ih

theorem fillCatCell_fillCatCell (d : String) (v : Value) :
    fillCatCell d (fillCatCell d v) = fillCatCell d v := by
  cases v <;> rfl

theorem map_map_of_idem {f : Value → Value} (hf : ∀ v, f (f v) = f v)
    (l : List Value) : (l.map f).map f = l.map f := by
  rw [List.map_map]
  exact List.map_congr_left (fun a _ => hf a)

theorem mapColumnCells_idem (t : Table) (col : String) (f : Value → Value)
    (hf : ∀ v, f (f v) = f v) :
    mapColumnCells (mapColumnCells t col f) col f = mapColumnCells t col f := by
  induction t with
  | nil => rfl
  | cons c cs ih =>
    by_cases hname : c.name = col
    · simp [mapColumnCells, hname, map_map_of_idem hf, ih]
    · simp [mapColumnCells, hname, ih]

theorem stepRowsOk_of_uniform (s : Step) (t : Table) (n : ℕ)
    (h : uniformRows t n = true) : stepRowsOk s t n = true := by
  cases s with
  | coerce_numeric col ov =>
    simp only [stepRowsOk, applyStep]
    by_cases hc : hasColumn t col = true
    · rw [if_pos hc]
      exact uniformRows_mapColumnCells col _ h
    · rw [if_neg hc]
  | impute_missing col strat =>
    simp only [stepRowsOk, applyStep]
    by_cases hc : hasColumn t col = true
    · rw [if_pos hc]
      by_cases hv : (nonMissingNums (getCells t col)).isEmpty = true
      · rw [if_pos hv]
      · rw [if_neg hv]
        exact uniformRows_mapColumnCells col _ h
    · rw [if_neg hc]
  | fill_categorical col d =>
    simp only [stepRowsOk, applyStep]
    by_cases hc : hasColumn t col = true
    · rw [if_pos hc]
      exact uniformRows_mapColumnCells col _ h
    · rw [if_neg hc]
  | normalize_numeric_text col sm =>
    simp only [stepRowsOk, applyStep]
    by_cases hc : hasColumn t col = true
    · rw [if_pos hc]
      exact uniformRows_mapColumnCells col _ h
    · rw [if_neg hc]
  | relabel_category col mp =>
    simp only [stepRowsOk, applyStep]
    by_cases hc : hasColumn t col = true
    · rw [if_pos hc]
      exact uniformRows_mapColumnCells col _ h
    · rw [if_neg hc]
  | drop_column name =>
    simp only [stepRowsOk, applyStep]
    by_cases hc : hasColumn t name = true
    · rw [if_pos hc]
      exact uniformRows_dropColumnList name h
    · rw [if_neg hc]

theorem run_preserves_uniform (steps : List Step) (t : Table) (n : ℕ)
    (h : uniformRows t n = true) :
    uniformRows (run t steps).table n = true := by
  induction steps generalizing t with
  | nil => exact h
  | cons s rest ih =>
    simp only [run]
    cases happ : applyStep s t with
    | error e => exact h
    | ok p =>
      obtain ⟨t2, r⟩ := p
      have hs := stepRowsOk_of_uniform s t n h
      simp only [stepRowsOk, happ] at hs
      exact ih t2 hs

/-! ## Claim theorems -/

/-- C2: If every value of the target numeric column is missing at the time
`impute_missing` is called (so no statistic is computable from non-missing
values), `impute_missing` fails with `ImputationError` rather than
returning a table, and the error carries the column name. -/
theorem impute_all_missing_raises (t : Table) (col : String)
    (strategy : Strategy) (hc : hasColumn t col = true)
    (hm : ∀ v ∈ getCells t col, v = Value.missing) :
    applyStep (.impute_missing col strategy) t
      = .error (.imputationError col) := by
  have hnil : nonMissingNums (getCells t col) = [] := by
    simp only [nonMissingNums, List.filterMap_eq_nil_iff]
    intro v hv
    rw [hm v hv]
  simp [applyStep, hc, hnil]

/-- Witness for C2: an all-missing two-row `age` column raises
`ImputationError "age"` under the `median` strategy. -/
theorem impute_all_missing_raises_witness :
    hasColumn [⟨"age", [Value.missing, Value.missing]⟩] "age" = true
    ∧ (∀ v ∈ getCells [⟨"age", [Value.missing, Value.missing]⟩] "age",
        v = Value.missing)
    ∧ applyStep (.impute_missing "age" .median)
        [⟨"age", [Value.missing, Value.missing]⟩]
      = .error (.imputationError "age") :=
  ⟨by decide, by decide,
    impute_all_missing_raises [⟨"age", [Value.missing, Value.missing]⟩]
      "age" .median (by decide) (by decide)⟩

/-- C3: For every input table and every cleaning step, the table produced
by the step has exactly the same number of rows as the input table, and
row counts stay uniform across all columns throughout the pipeline: a step
applied to a table whose columns all have `n` cells either fails fatally or
yields a table whose columns all have `n` cells, and `run` preserves this
uniformity across any step list. -/
theorem steps_preserve_row_count :
    (∀ (s : Step) (t : Table) (n : ℕ), uniformRows t n = true →
      stepRowsOk s t n = true)
    ∧ (∀ (steps : List Step) (t : Table) (n : ℕ), uniformRows t n = true →
      uniformRows (run t steps).table n = true) :=
  ⟨stepRowsOk_of_uniform, run_preserves_uniform⟩

/-- Witness for C3 at tables of 0, 1 and 7 rows. -/
theorem steps_preserve_row_count_witness :
    (uniformRows [⟨"age", []⟩] 0 = true
      ∧ stepRowsOk (.fill_categorical "age" "Unknown") [⟨"age", []⟩] 0 = true)
    ∧ (uniformRows [⟨"age", [Value.missing]⟩] 1 = true
      ∧ stepRowsOk (.coerce_numeric "age" []) [⟨"age", [Value.missing]⟩] 1
          = true)
    ∧ (uniformRows messyTable 7 = true
      ∧ stepRowsOk (.drop_column "monthly_salary") messyTable 7 = true
      ∧ uniformRows (run messyTable [.drop_column "monthly_salary",
          .relabel_category "gender" [("Other", "Non-binary")]]).table 7
          = true) :=
  ⟨⟨by decide, steps_preserve_row_count.1 _ _ _ (by decide)⟩,
   ⟨by decide, steps_preserve_row_count.1 _ _ _ (by decide)⟩,
   ⟨by decide, steps_preserve_row_count.1 _ _ _ (by decide),
    steps_preserve_row_count.2 _ _ _ (by decide)⟩⟩

/-- C7: `fill_categorical` is idempotent: whenever
`fill_categorical(col, d)` applied to a table succeeds with table `t1`,
applying it again to `t1` succeeds and returns `t1` itself — after the
first run the column has no remaining missing values to refill. -/
theorem fill_categorical_idempotent (t t1 : Table) (col d : String)
    (r1 : CleaningReport)
    (h : applyStep (.fill_categorical col d) t = .ok (t1, r1)) :
    ∃ r2, applyStep (.fill_categorical col d) t1 = .ok (t1, r2) := by
  simp only [applyStep] at h
  by_cases hc : hasColumn t col = true
  · rw [if_pos hc] at h
    simp only [Except.ok.injEq, Prod.mk.injEq] at h
    obtain ⟨ht1, _⟩ := h
    subst ht1
    have hc2 : hasColumn (mapColumnCells t col (fillCatCell d)) col = true := by
      rw [hasColumn_mapColumnCells]; exact hc
    simp only [applyStep, if_pos hc2,
      mapColumnCells_idem t col _ (fillCatCell_fillCatCell d)]
    exact ⟨_, rfl⟩
  · rw [if_neg hc] at h
    simp at h

/-- Witness for C7: filling `country` with `"Unknown"` twice on a concrete
table with a missing cell equals filling it once. -/
theorem fill_categorical_idempotent_witness :
    applyStep (.fill_categorical "country" "Unknown")
        [⟨"country", [Value.text "USA", Value.missing]⟩]
      = .ok ([⟨"country", [Value.text "USA", Value.text "Unknown"]⟩],
          ⟨"fill_categorical", "country", 1, 1, 0, []⟩)
    ∧ ∃ r2, applyStep (.fill_categorical "country" "Unknown")
        [⟨"country", [Value.text "USA", Value.text "Unknown"]⟩]
      = .ok ([⟨"country", [Value.text "USA", Value.text "Unknown"]⟩], r2) :=
  ⟨by rfl,
    fill_categorical_idempotent
      [⟨"country", [Value.text "USA", Value.missing]⟩]
      [⟨"country", [Value.text "USA", Value.text "Unknown"]⟩]
      "country" "Unknown"
      ⟨"fill_categorical", "country", 1, 1, 0, []⟩ (by rfl)⟩

/-- C1: `normalize_numeric_text` strips thousands separators, applies a
suffix multiplier only to values bearing a recognized suffix, and maps
unrecognized text to missing; applied to `["60,000", "40k", "unknown"]`
with suffix map `{k: 1000}` it yields `[60000, 40000, missing]`. In
particular a value without a recognized suffix, such as `"100,000"`, is
parsed with no multiplier applied. -/
theorem normalize_numeric_text_spec :
    (∀ (sm : List (String × Frac)) (s : String), suffixLookup sm s = none →
      normalizeTextCell sm (.text s)
        = ((parseDecimal (stripToDigitsDot s)).map Value.num).getD .missing)
    ∧ (∀ (sm : List (String × Frac)) (s : String) (p : String × Frac),
        suffixLookup sm s = some p →
        normalizeTextCell sm (.text s)
          = ((parseDecimal (stripToDigitsDot (String.mk
              (s.toList.take (s.toList.length - p.1.toList.length))))).map
            (fun q => Value.num (q * p.2))).getD .missing)
    ∧ ([Value.text "60,000", Value.text "40k", Value.text "unknown"].map
        (normalizeTextCell [("k", 1000)])
        = [Value.num 60000, Value.num 40000, Value.missing])
    ∧ normalizeTextCell [("k", 1000)] (Value.text "100,000")
        = Value.num 100000 := by
  refine ⟨?_, ?_, by decide, by decide⟩
  · intro sm s hnone
    simp only [normalizeTextCell, hnone]
    cases hp : parseDecimal (stripToDigitsDot s) <;> simp [hp]
  · intro sm s p hsome
    simp only [normalizeTextCell, hsome]
    cases hp : parseDecimal (stripToDigitsDot (String.mk
        (s.toList.take (s.toList.length - p.1.toList.length)))) <;> simp [hp]

/-- Witness for C1: the no-suffix case at `"60,000"` and the recognized
suffix case at `"40k"`. -/
theorem normalize_numeric_text_spec_witness :
    (suffixLookup [("k", (1000 : Frac))] "60,000" = none
      ∧ normalizeTextCell [("k", 1000)] (Value.text "60,000")
        = ((parseDecimal (stripToDigitsDot "60,000")).map Value.num).getD
            .missing)
    ∧ (suffixLookup [("k", (1000 : Frac))] "40k" = some ("k", 1000)
      ∧ normalizeTextCell [("k", 1000)] (Value.text "40k")
        = ((parseDecimal (stripToDigitsDot (String.mk
            ("40k".toList.take ("40k".toList.length - "k".toList.length))))).map
          (fun q => Value.num (q * 1000))).getD .missing) :=
  ⟨⟨by decide, normalize_numeric_text_spec.1 [("k", 1000)] "60,000" (by decide)⟩,
   ⟨by decide, normalize_numeric_text_spec.2.1 [("k", 1000)] "40k" ("k", 1000)
      (by decide)⟩⟩

/-- C4: `coerce_numeric` first applies the literal override map and then
parses the remaining values as numbers, any value that still fails to
parse becoming missing with no silent default; on
`["25", "30", "thirty-five"]` with override `{"thirty-five": 35}` it
yields `[25, 30, 35]` with zero coercion failures, and on `["unknown"]`
with no override it yields `[missing]` with one recorded failure. -/
theorem coerce_numeric_overrides_then_parse :
    (∀ (ov : List (String × Frac)) (s : String) (p : String × Frac),
      ov.find? (fun x => x.1 == s) = some p →
      coerceCell ov (.text s) = .num p.2)
    ∧ (∀ (ov : List (String × Frac)) (s : String),
      ov.find? (fun x => x.1 == s) = none →
      coerceCell ov (.text s) = ((parseDecimal s).map Value.num).getD .missing)
    ∧ ([Value.text "25", Value.text "30", Value.text "thirty-five"].map
        (coerceCell [("thirty-five", 35)])
        = [Value.num 25, Value.num 30, Value.num 35])
    ∧ (coerceFailures [("thirty-five", 35)]
        [Value.text "25", Value.text "30", Value.text "thirty-five"] = [])
    ∧ ([Value.text "unknown"].map (coerceCell []) = [Value.missing])
    ∧ (coerceFailures [] [Value.text "unknown"]).length = 1 := by
  refine ⟨?_, ?_, by decide, by decide, by decide, by decide⟩
  · intro ov s p hp
    simp only [coerceCell, hp]
  · intro ov s hnone
    simp only [coerceCell, hnone]
    cases hp : parseDecimal s <;> simp [hp]

/-- Witness for C4: the override case at `"thirty-five"` and the
parse-failure case at `"unknown"`. -/
theorem coerce_numeric_overrides_then_parse_witness :
    ([(("thirty-five", (35 : Frac)))].find? (fun x => x.1 == "thirty-five")
        = some ("thirty-five", 35)
      ∧ coerceCell [("thirty-five", 35)] (Value.text "thirty-five")
        = Value.num 35)
    ∧ (([] : List (String × Frac)).find? (fun x => x.1 == "unknown") = none
      ∧ coerceCell [] (Value.text "unknown")
        = ((parseDecimal "unknown").map Value.num).getD .missing) :=
  ⟨⟨by decide, coerce_numeric_overrides_then_parse.1 [("thirty-five", 35)]
      "thirty-five" ("thirty-five", 35) (by decide)⟩,
   ⟨by decide, coerce_numeric_overrides_then_parse.2.1 [] "unknown"
      (by decide)⟩⟩

/-- C5: `impute_missing` replaces each missing cell with the statistic
computed over the non-missing values of the column at the time of the
call; with strategy `median` on `[25, 30, missing, 35, 22]` the missing
entry is replaced by `55/2 = 27.5`, the median of `[25, 30, 35, 22]`. -/
theorem impute_median_semantics :
    (∀ (t : Table) (col : String) (strat : Strategy) (t2 : Table)
        (r : CleaningReport),
      applyStep (.impute_missing col strat) t = .ok (t2, r) →
      getCells t2 col = (getCells t col).map
        (fillMissingCell (statOf strat (nonMissingNums (getCells t col)))))
    ∧ (run [⟨"age", [Value.num 25, Value.num 30, Value.missing,
          Value.num 35, Value.num 22]⟩] [.impute_missing "age" .median]
        = ⟨[⟨"age", [Value.num 25, Value.num 30, Value.num ⟨55, 2⟩,
            Value.num 35, Value.num 22]⟩],
          [⟨"impute_missing", "age", 1, 1, 0, []⟩], none⟩)
    ∧ medianOf [25, 30, 35, 22] = some ⟨55, 2⟩
    ∧ (Frac.mk 55 2).toRat = 27.5 := by
  refine ⟨?_, by decide, by decide, by norm_num [Frac.toRat]⟩
  intro t col strat t2 r h
  simp only [applyStep] at h
  by_cases hc : hasColumn t col = true
  · rw [if_pos hc] at h
    by_cases hv : (nonMissingNums (getCells t col)).isEmpty = true
    · rw [if_pos hv] at h
      simp at h
    · rw [if_neg hv] at h
      simp only [Except.ok.injEq, Prod.mk.injEq] at h
      obtain ⟨ht2, _⟩ := h
      subst ht2
      exact getCells_mapColumnCells_self t col _
  · rw [if_neg hc] at h
    simp at h

/-- Witness for C5: the general clause applied to the concrete five-row
column of the claim. -/
theorem impute_median_semantics_witness :
    applyStep (.impute_missing "age" .median)
        [⟨"age", [Value.num 25, Value.num 30, Value.missing, Value.num 35,
          Value.num 22]⟩]
      = .ok ([⟨"age", [Value.num 25, Value.num 30, Value.num ⟨55, 2⟩,
          Value.num 35, Value.num 22]⟩],
          ⟨"impute_missing", "age", 1, 1, 0, []⟩)
    ∧ getCells [⟨"age", [Value.num 25, Value.num 30, Value.num ⟨55, 2⟩,
          Value.num 35, Value.num 22]⟩] "age"
      = (getCells [⟨"age", [Value.num 25, Value.num 30, Value.missing,
          Value.num 35, Value.num 22]⟩] "age").map
        (fillMissingCell (statOf .median (nonMissingNums
          (getCells [⟨"age", [Value.num 25, Value.num 30, Value.missing,
            Value.num 35, Value.num 22]⟩] "age")))) :=
  ⟨by rfl,
    impute_median_semantics.1
      [⟨"age", [Value.num 25, Value.num 30, Value.missing, Value.num 35,
        Value.num 22]⟩] "age" .median
      [⟨"age", [Value.num 25, Value.num 30, Value.num ⟨55, 2⟩,
        Value.num 35, Value.num 22]⟩]
      ⟨"impute_missing", "age", 1, 1, 0, []⟩ (by rfl)⟩

/-- C6: `drop_column` removes exactly the named column and leaves every
other column's name, values and order unchanged (the result is the
name-filtered table, a sublist of the input whose members are precisely
the input columns of a different name); applying `drop_column` again with
the same name fails with `ColumnNotFoundError`; concretely,
`drop_column("monthly_salary")` on the sample table keeps the other five
columns verbatim. -/
theorem drop_column_semantics :
    (∀ (t : Table) (name : String), hasColumn t name = true →
      applyStep (.drop_column name) t
        = .ok (dropColumnList t name, ⟨"drop_column", name, 0, 0, 0, []⟩))
    ∧ (∀ (t : Table) (name : String) (c : Column),
        c ∈ dropColumnList t name ↔ c ∈ t ∧ ¬ c.name = name)
    ∧ (∀ (t : Table) (name : String), List.Sublist (dropColumnList t name) t)
    ∧ (∀ (t : Table) (name : String) (t2 : Table) (r : CleaningReport),
        applyStep (.drop_column name) t = .ok (t2, r) →
        applyStep (.drop_column name) t2
          = .error (.columnNotFound "drop_column" name))
    ∧ ((run messyTable [.drop_column "monthly_salary"]).table
        = [ ⟨"name", [.text "Alice", .text "Bob", .text "Charlie",
              .text "David", .text "Emily", .text "Frank", .text "Grace"]⟩,
            ⟨"age", [.num 25, .num 30, .missing, .text "thirty-five",
              .num 22, .num 45, .text "unknown"]⟩,
            ⟨"gender", [.text "Female", .text "Male", .text "Male",
              .text "Male", .text "Female", .text "Other", .text "Male"]⟩,
            ⟨"country", [.text "USA", .text "Canada", .text "Mexico",
              .text "USA", .text "Australia", .text "Unknown", .text "UK"]⟩,
            ⟨"annual_income", [.text "60,000", .text "90,000", .missing,
              .text "100,000", .text "40k", .text "75k",
              .text "unknown"]⟩ ]) := by
  refine ⟨?_, ?_, ?_, ?_, by decide⟩
  · intro t name h
    simp [applyStep, h]
  · intro t name c
    induction t with
    | nil => simp [dropColumnList]
    | cons hd tl ih =>
      simp only [dropColumnList]
      by_cases hname : hd.name = name
      · rw [if_pos hname, ih]
        constructor
        · rintro ⟨hc, hcn⟩
          exact ⟨List.mem_cons_of_mem _ hc, hcn⟩
        · rintro ⟨hc, hcn⟩
          rcases List.mem_cons.mp hc with h1 | h1
          · exact absurd (h1 ▸ hname) hcn
          · exact ⟨h1, hcn⟩
      · rw [if_neg hname]
        simp only [List.mem_cons, ih]
        constructor
        · rintro (h1 | ⟨hc, hcn⟩)
          · subst h1
            exact ⟨Or.inl rfl, hname⟩
          · exact ⟨Or.inr hc, hcn⟩
        · rintro ⟨hc, hcn⟩
          rcases hc with h1 | h1
          · exact Or.inl h1
          · exact Or.inr ⟨h1, hcn⟩
  · intro t name
    induction t with
    | nil => exact List.Sublist.refl []
    | cons hd tl ih =>
      simp only [dropColumnList]
      by_cases hname : hd.name = name
      · rw [if_pos hname]
        exact ih.cons hd
      · rw [if_neg hname]
        exact ih.cons₂ hd
  · intro t name t2 r h
    simp only [applyStep] at h
    by_cases hc : hasColumn t name = true
    · rw [if_pos hc] at h
      simp only [Except.ok.injEq, Prod.mk.injEq] at h
      obtain ⟨ht, _⟩ := h
      subst ht
      simp [applyStep, hasColumn_dropColumnList_self]
    · rw [if_neg hc] at h
      simp at h

/-- Witness for C6: dropping `monthly_salary` from the sample table and
dropping it again from the result. -/
theorem drop_column_semantics_witness :
    hasColumn messyTable "monthly_salary" = true
    ∧ applyStep (.drop_column "monthly_salary") messyTable
      = .ok (dropColumnList messyTable "monthly_salary",
          ⟨"drop_column", "monthly_salary", 0, 0, 0, []⟩)
    ∧ applyStep (.drop_column "monthly_salary")
        (dropColumnList messyTable "monthly_salary")
      = .error (.columnNotFound "drop_column" "monthly_salary") :=
  ⟨by decide,
   drop_column_semantics.1 messyTable "monthly_salary" (by decide),
   drop_column_semantics.2.2.2.1 messyTable "monthly_salary"
     (dropColumnList messyTable "monthly_salary")
     ⟨"drop_column", "monthly_salary", 0, 0, 0, []⟩ (by rfl)⟩

/-- C8: pipeline runs compose: running
`[coerce_numeric(age, {thirty-five: 35}), impute_missing(age, median)]` in
one `run` call on the sample dataset produces the same final table and the
concatenation of the same reports as running the two steps in two separate
`run` calls, threading the intermediate table from the first call into the
second. -/
theorem pipeline_run_composes_on_sample :
    (run messyTable [.coerce_numeric "age" [("thirty-five", 35)],
        .impute_missing "age" .median]).table
      = (run (run messyTable
            [.coerce_numeric "age" [("thirty-five", 35)]]).table
          [.impute_missing "age" .median]).table
    ∧ (run messyTable [.coerce_numeric "age" [("thirty-five", 35)],
        .impute_missing "age" .median]).reports
      = (run messyTable [.coerce_numeric "age" [("thirty-five", 35)]]).reports
        ++ (run (run messyTable
              [.coerce_numeric "age" [("thirty-five", 35)]]).table
            [.impute_missing "age" .median]).reports
    ∧ (run messyTable [.coerce_numeric "age" [("thirty-five", 35)],
        .impute_missing "age" .median]).err = none :=
  ⟨by decide, by decide, by decide⟩

/-! ## The annual_income normalization (C9) and the gender relabel (C10) -/

theorem anyDigit_filter (l : List Char) :
    (l.filter (fun c => c.isDigit || c = '.')).any Char.isDigit
      = l.any Char.isDigit := by
  induction l with
  | nil => rfl
  | cons c cs ih =>
    by_cases hd : c.isDigit = true
    · simp [List.filter_cons, List.any_cons, hd, ih]
    · by_cases hdot : c = '.'
      · simp [List.filter_cons, List.any_cons, hd, hdot, ih]
      · simp [List.filter_cons, List.any_cons, hd, hdot, ih]

theorem countDots_filter (l : List Char) :
    countDots (l.filter (fun c => c.isDigit || c = '.')) = countDots l := by
  induction l with
  | nil => rfl
  | cons c cs ih =>
    by_cases hdot : c = '.'
    · simp [countDots, List.filter_cons, hdot, ih,
        (by decide : ('.' : Char).isDigit = false)] at ih ⊢
      exact ih
    · by_cases hd : c.isDigit = true
      · simp [countDots, List.filter_cons, hd, hdot, ih] at ih ⊢
        exact ih
      · simp [countDots, List.filter_cons, hd, hdot, ih] at ih ⊢
        exact ih

theorem strip_all_digitDot (l : List Char) :
    (l.filter (fun c => c.isDigit || c = '.')).all
      (fun c => c.isDigit || c = '.') = true := by
  rw [List.all_eq_true]
  intro c hc
  exact (List.mem_filter.mp hc).2

theorem isDecimalLiteral_strip (s : String) :
    isDecimalLiteral (stripToDigitsDot s).toList
      = (containsDigit s && decide (countDots s.toList ≤ 1)) := by
  have htl : (stripToDigitsDot s).toList
      = s.toList.filter (fun c => c.isDigit || c = '.') := rfl
  rw [isDecimalLiteral, htl, strip_all_digitDot, anyDigit_filter,
    countDots_filter, containsDigit]
  simp

theorem parseDecimal_strip_isSome (s : String) :
    (parseDecimal (stripToDigitsDot s)).isSome
      = (containsDigit s && decide (countDots s.toList ≤ 1)) := by
  rw [← isDecimalLiteral_strip s]
  simp only [parseDecimal]
  by_cases hlit : isDecimalLiteral (stripToDigitsDot s).toList = true
  · rw [if_pos hlit, hlit]
    by_cases hfp : (((stripToDigitsDot s).toList.dropWhile
        (fun c => c ≠ '.')).drop 1).isEmpty = true
    · rw [if_pos hfp]
      rfl
    · rw [if_neg hfp]
      rfl
  · rw [if_neg hlit]
    rw [Bool.not_eq_true] at hlit
    rw [hlit]
    rfl

/-- C9 counterexample: `"1.2.3"` contains digits, yet the notebook's
`annual_income` normalization maps it to missing (its digit-and-dot
residue `"1.2.3"` has two decimal points and fails `pd.to_numeric`),
refuting that every text value containing at least one digit is parsed and
that only values containing no digits at all become missing. -/
theorem income_digit_value_can_be_missing :
    containsDigit "1.2.3" = true
    ∧ incomeNormalizeCell (.text "1.2.3") = .missing :=
  ⟨by decide, by decide⟩

/-- C9 (amended): in the notebook's `annual_income` normalization, every
text value whose digit-and-dot residue parses as a decimal number — it
contains at least one digit and at most one decimal point — is parsed to
that number and multiplied by 1000 unconditionally, including values
already in full units such as `"100,000"`, which becomes `100000000`;
every other text value (no digits at all, like `"unknown"`, or a
malformed residue with two or more decimal points) becomes missing. On
the notebook's own column the result is exactly the printed output
`[60000000, 90000000, NaN, 100000000, 40000, 75000, NaN]`. -/
theorem income_normalize_semantics :
    (∀ s : String,
      (containsDigit s && decide (countDots s.toList ≤ 1)) = true →
      ∃ q : Frac, parseDecimal (stripToDigitsDot s) = some q
        ∧ incomeNormalizeCell (.text s) = .num (q * 1000))
    ∧ (∀ s : String,
      (containsDigit s && decide (countDots s.toList ≤ 1)) = false →
      incomeNormalizeCell (.text s) = .missing)
    ∧ incomeNormalizeCell (.text "100,000") = .num 100000000
    ∧ incomeNormalizeCell (.text "unknown") = .missing
    ∧ getCells (notebookClean messyTable) "annual_income"
      = [.num 60000000, .num 90000000, .missing, .num 100000000,
         .num 40000, .num 75000, .missing] := by
  refine ⟨?_, ?_, by decide, by decide, by decide⟩
  · intro s hs
    have hsome : (parseDecimal (stripToDigitsDot s)).isSome = true := by
      rw [parseDecimal_strip_isSome, hs]
    obtain ⟨q, hq⟩ := Option.isSome_iff_exists.mp hsome
    exact ⟨q, hq, by simp [incomeNormalizeCell, hq]⟩
  · intro s hs
    have hnone : parseDecimal (stripToDigitsDot s) = none := by
      have hiss := parseDecimal_strip_isSome s
      rw [hs] at hiss
      exact Option.not_isSome_iff_eq_none.mp (by simp [hiss])
    simp [incomeNormalizeCell, hnone]

/-- Witness for C9 (amended): the parsed-and-multiplied case at `"40k"`
and the no-digit case at `"unknown"`. -/
theorem income_normalize_semantics_witness :
    ((containsDigit "40k" && decide (countDots "40k".toList ≤ 1)) = true
      ∧ ∃ q : Frac, parseDecimal (stripToDigitsDot "40k") = some q
        ∧ incomeNormalizeCell (.text "40k") = .num (q * 1000))
    ∧ ((containsDigit "unknown"
          && decide (countDots "unknown".toList ≤ 1)) = false
      ∧ incomeNormalizeCell (.text "unknown") = .missing) :=
  ⟨⟨by decide, income_normalize_semantics.1 "40k" (by decide)⟩,
   ⟨by decide, income_normalize_semantics.2.1 "unknown" (by decide)⟩⟩

theorem getCells_notebookClean_gender (t : Table) :
    getCells (notebookClean t) "gender"
      = ((getCells t "gender").map (fillCatCell "Other")).map
          (replaceCell "Other" "Non-binary") := by
  simp only [notebookClean]
  cases hmed : medianOf (nonMissingNums
      (getCells (mapColumnCells t "age" ageCoerceCell) "age")) with
  | none =>
    rw [getCells_mapColumnCells_self,
      getCells_dropColumnList_ne _ "gender" "monthly_salary" (by decide),
      getCells_mapColumnCells_ne _ "gender" "annual_income" (by decide),
      getCells_mapColumnCells_self,
      getCells_mapColumnCells_ne _ "gender" "country" (by decide),
      getCells_mapColumnCells_ne _ "gender" "age" (by decide)]
  | some m =>
    rw [getCells_mapColumnCells_self,
      getCells_dropColumnList_ne _ "gender" "monthly_salary" (by decide),
      getCells_mapColumnCells_ne _ "gender" "annual_income" (by decide),
      getCells_mapColumnCells_self,
      getCells_mapColumnCells_ne _ "gender" "country" (by decide),
      getCells_mapColumnCells_ne _ "gender" "age" (by decide),
      getCells_mapColumnCells_ne _ "gender" "age" (by decide)]

/-- C10: because the missing-gender default `'Other'` is applied before
the relabeling of `'Other'` to `'Non-binary'`, a gender cell that is
missing in the input ends as `'Non-binary'` in the notebook pipeline's
final table, and is indistinguishable there from a cell that was
literally `'Other'` in the input. -/
theorem missing_gender_becomes_nonbinary :
    (∀ (t : Table) (i : ℕ),
      (getCells t "gender")[i]? = some Value.missing →
      (getCells (notebookClean t) "gender")[i]?
        = some (.text "Non-binary"))
    ∧ genderClean Value.missing = .text "Non-binary"
    ∧ genderClean (.text "Other") = genderClean Value.missing := by
  refine ⟨?_, by decide, by decide⟩
  intro t i h
  rw [getCells_notebookClean_gender, List.getElem?_map, List.getElem?_map, h]
  rfl

/-- Witness for C10: a concrete two-row table whose second gender cell is
missing ends with `'Non-binary'` there. -/
theorem missing_gender_becomes_nonbinary_witness :
    (getCells [⟨"gender", [Value.text "Female", Value.missing]⟩]
        "gender")[1]? = some Value.missing
    ∧ (getCells (notebookClean
        [⟨"gender", [Value.text "Female", Value.missing]⟩]) "gender")[1]?
      = some (.text "Non-binary") :=
  ⟨by decide,
   missing_gender_becomes_nonbinary.1
     [⟨"gender", [Value.text "Female", Value.missing]⟩] 1 (by decide)⟩

end DataCleaning
